import Mathlib

/-!
Verification of the move-composition store of the scrabble-fe client
(src/src/store/useGameStore.ts).  The store source contains two variants of
the module: variant A (lines 1-499, the one with the letter-exchange mode)
and variant B (lines 500-934, the one whose placeLetterPreview implements
the drag-and-drop word composer).  Operations that differ between the two
variants are embedded twice, with an A or B suffix; operations whose bodies
agree are embedded once under the source name.

Board cells and rack tiles are single-character strings in the source
("." marks an empty board cell, " " a blanked rack slot); they are modelled
as Char.  Words are lists of Char, coordinates are integers (JS numbers used
as signed integers by the source's bounds checks), and the JS records
indexed by player number are modelled as association lists.
-/

namespace Scrabble

inductive Dir where
  | row
  | col
deriving DecidableEq, Repr

abbrev Board := List (List Char)

structure PreviewStatus where
  ok : Bool
  overflow : Bool
  conflict : Bool
  /-- the `need` record, letter to shortfall count, in insertion order;
  the source renders each entry as the string ch + multiplication sign + n. -/
  missing : List (Char × Nat)
deriving DecidableEq, Repr

/-- The fields of the zustand store that the composition logic touches. -/
structure State where
  gameId : Option String
  board : Option Board
  currentPlayer : Nat
  hands : List (Nat × List Char)
  start : Option (Int × Int)
  direction : Option Dir
  word : List Char
  wordRackIndices : List (Option Nat)
  exchanging : Bool
  exchangeSelection : List Nat
  error : Option String
  loading : Bool
deriving DecidableEq, Repr

/-- The store's initial field values (variant A's `create` initializers;
variant B agrees on every field it has). -/
def initialState : State where
  gameId := none
  board := none
  currentPlayer := 0
  hands := []
  start := none
  direction := some Dir.row
  word := []
  wordRackIndices := []
  exchanging := false
  exchangeSelection := []
  error := none
  loading := false

/-- `hands[p] ?? []` on the player-indexed record. -/
def handsGet (hands : List (Nat × List Char)) (p : Nat) : List Char :=
  match hands.find? (fun e => e.1 == p) with
  | some e => e.2
  | none => []

/-- `{ ...hands, [p]: v }` on the player-indexed record. -/
def recSet (hands : List (Nat × List Char)) (p : Nat) (v : List Char) :
    List (Nat × List Char) :=
  match hands with
  | [] => [(p, v)]
  | e :: rest => if e.1 = p then (p, v) :: rest else e :: recSet rest p v

/-- number of tiles with letter `c` in a rack -/
def countc (c : Char) : List Char → Nat
  | [] => 0
  | d :: rest => (if d = c then 1 else 0) + countc c rest

/-- `rack.findIndex(r => r === letter)` followed by `splice(idx, 1)`:
remove the first occurrence, `none` when the letter is absent. -/
def removeFirst (rack : List Char) (c : Char) : Option (List Char) :=
  match rack with
  | [] => none
  | r :: rest =>
    if r = c then some rest
    else (removeFirst rest c).map (fun l => r :: l)

/-- `need[letter] = (need[letter] ?? 0) + 1` on the insertion-ordered record -/
def bump (need : List (Char × Nat)) (c : Char) : List (Char × Nat) :=
  match need with
  | [] => [(c, 1)]
  | (d, n) :: rest => if d = c then (d, n + 1) :: rest else (d, n) :: bump rest c

/-- total count recorded for letter `c` in the `need` record -/
def needCount (c : Char) : List (Char × Nat) → Nat
  | [] => 0
  | (d, n) :: rest => (if d = c then n else 0) + needCount c rest

/-- `while (map.length < n) map.push(null)` -/
def padTo (l : List (Option Nat)) (n : Nat) : List (Option Nat) :=
  l ++ List.replicate (n - l.length) none

/-- `board.length` -/
def rowsOf (b : Board) : Nat := b.length

/-- `board[0]?.length ?? 0` -/
def colsOf (b : Board) : Nat := (b.head?.getD []).length

/-- `board[y][x]` for coordinates already checked in bounds -/
def cellAtI (b : Board) (x y : Int) : Option Char :=
  (b.getD y.toNat []).get? x.toNat

-- ## Operations shared verbatim by the two variants

/-- `setStart(x, y)` -/
def setStart (s : State) (x y : Int) : State :=
  { s with start := some (x, y), error := none }

/-- `setDirection(d)` -/
def setDirection (s : State) (d : Dir) : State :=
  { s with direction := some d }

/-- `setWord(w)`: uppercases, rebuilds the index map as all-null -/
def setWord (s : State) (w : List Char) : State :=
  let up := w.map Char.toUpper
  { s with word := up, wordRackIndices := List.replicate up.length none,
           error := none }

/-- `clear()`: identical body in both variants -/
def clear (s : State) : State :=
  { s with start := none, word := [], wordRackIndices := [], error := none }

/-- `backspaceWord()` -/
def backspaceWord (s : State) : State :=
  if s.word = [] then s
  else
    { s with word := s.word.dropLast, wordRackIndices := s.wordRackIndices.dropLast,
             error := none }

/-- the `set({ word: '', wordRackIndices: [], start: null })` performed by
`place()` when the server accepts the move -/
def placeResetLocal (s : State) : State :=
  { s with word := [], wordRackIndices := [], start := none }

-- ## Variant A rack / exchange operations

/-- `appendFromRack(index)`, variant A (the variant with the
`exchanging` guard; variant B's body is the same without that guard). -/
def appendFromRack (s : State) (index : Nat) : State :=
  if s.exchanging then s
  else
    let rack := handsGet s.hands s.currentPlayer
    match rack.get? index with
    | none => s
    | some ch =>
      { s with word := s.word ++ [ch.toUpper],
               wordRackIndices := s.wordRackIndices ++ [some index],
               error := none }

/-- first rack slot not already used by the word that holds `upper` -/
def firstFreeWith (rack : List Char) (used : List Nat) (upper : Char) :
    Option Nat :=
  (List.range rack.length).find?
    (fun i => decide (i ∉ used) && decide ((rack.getD i ' ').toUpper = upper))

/-- `appendFromKeyboard(letter)`, variant A -/
def appendFromKeyboard (s : State) (letter : Char) : State :=
  if s.exchanging then s
  else
    let rack := handsGet s.hands s.currentPlayer
    if rack = [] then s
    else
      let upper := letter.toUpper
      let used := s.wordRackIndices.filterMap id
      match firstFreeWith rack used upper with
      | none => s
      | some i =>
        { s with word := s.word ++ [upper],
                 wordRackIndices := s.wordRackIndices ++ [some i],
                 error := none }

/-- `startExchange()` -/
def startExchange (s : State) : State :=
  if s.word ≠ [] then s
  else { s with exchanging := true, exchangeSelection := [], error := none }

/-- `toggleExchangeIndex(index)` -/
def toggleExchangeIndex (s : State) (index : Nat) : State :=
  if ¬ s.exchanging then s
  else if index ∈ s.exchangeSelection then
    { s with exchangeSelection := s.exchangeSelection.filter (fun i => i ≠ index) }
  else
    { s with exchangeSelection := s.exchangeSelection ++ [index] }

/-- `cancelExchange()` -/
def cancelExchange (s : State) : State :=
  { s with exchanging := false, exchangeSelection := [] }

/-- the letters an exchange request would carry -/
structure ExchangeRequest where
  gameId : String
  letters : List Char
deriving DecidableEq, Repr

/-- `confirmExchange()`, variant A, up to the point where the request is
handed to the remote service: returns the state after the synchronous
guards together with the request sent, `none` when the call returns
without contacting the service. -/
def confirmExchangeStep (s : State) : State × Option ExchangeRequest :=
  match s.gameId with
  | none => (s, none)
  | some gid =>
    if gid.isEmpty ∨ s.exchanging = false ∨ s.exchangeSelection.length = 0 then
      (s, none)
    else
      let rack := handsGet s.hands s.currentPlayer
      let letters := s.exchangeSelection.filterMap (fun i => rack.get? i)
      if letters.isEmpty then (s, none)
      else ({ s with loading := true, error := none },
            some { gameId := gid, letters := letters })

-- ## placeLetterPreview, both variants

/-- `newBoard[y][x] = letter` (after the row copies) -/
def setCell (b : Board) (x y : Nat) (c : Char) : Board :=
  b.set y ((b.getD y []).set x c)

/-- `placeLetterPreview(x, y, letter, rackIndex)`, variant A (lines
421-451): stamps the uppercased letter into an empty target cell of the
board copy and blanks the consumed rack slot. -/
def placeLetterPreviewA (s : State) (x y : Int) (letter : Char)
    (rackIndex : Option Nat) : State :=
  match s.board with
  | none => s
  | some b =>
    if x < 0 ∨ y < 0 ∨ (rowsOf b : Int) ≤ y ∨ (colsOf b : Int) ≤ x then s
    else
      let newBoard :=
        if cellAtI b x y = some '.' then setCell b x.toNat y.toNat letter.toUpper
        else b
      let s1 := { s with board := some newBoard }
      match rackIndex with
      | none => s1
      | some ri =>
        let rack := handsGet s1.hands s1.currentPlayer
        match rack.get? ri with
        | none => s1
        | some _ =>
          { s1 with hands := recSet s1.hands s1.currentPlayer (rack.set ri ' ') }

/-- `placeLetterPreview(x, y, letter, rackIndex)`, variant B (lines
803-889): the drag-and-drop word composer with direction inference. -/
def placeLetterPreviewB (s : State) (x y : Int) (letter : Char)
    (rackIndex : Option Nat) : State :=
  match s.board with
  | none => s
  | some _ =>
    let upper := letter.toUpper
    if s.word = [] then
      { s with start := some (x, y), direction := none,
               word := [upper], wordRackIndices := [rackIndex], error := none }
    else
      let newStart := s.start.getD (x, y)
      let dirOpt : Option Dir :=
        match s.direction with
        | none =>
          if x = newStart.1 ∧ y ≠ newStart.2 then some Dir.col
          else if y = newStart.2 ∧ x ≠ newStart.1 then some Dir.row
          else none
        | some d =>
          if (d = Dir.row ∧ y ≠ newStart.2) ∨ (d = Dir.col ∧ x ≠ newStart.1) then
            none
          else some d
      match dirOpt with
      | none => s
      | some dir =>
        let idx : Int := if dir = Dir.row then x - newStart.1 else y - newStart.2
        if idx < 0 then s
        else if (s.word.length : Int) < idx then s
        else
          let map := padTo s.wordRackIndices s.word.length
          if idx = (s.word.length : Int) then
            { s with start := some newStart, direction := some dir,
                     word := s.word ++ [upper],
                     wordRackIndices := map ++ [rackIndex], error := none }
          else
            { s with start := some newStart, direction := some dir,
                     word := s.word.set idx.toNat upper,
                     wordRackIndices :=
                       (match rackIndex with
                        | some ri => map.set idx.toNat (some ri)
                        | none => map),
                     error := none }

-- ## previewStatus, variant A (lines 453-498)

/-- x coordinate of the target cell of letter index `i` -/
def tx (st : Int × Int) (isRow : Bool) (i : Nat) : Int :=
  if isRow then st.1 + (i : Int) else st.1

/-- y coordinate of the target cell of letter index `i` -/
def ty (st : Int × Int) (isRow : Bool) (i : Nat) : Int :=
  if isRow then st.2 else st.2 + (i : Int)

/-- `x < 0 || y < 0 || y >= rows || x >= cols` at letter index `i` -/
def oobB (b : Board) (st : Int × Int) (isRow : Bool) (i : Nat) : Bool :=
  decide (tx st isRow i < 0) || decide (ty st isRow i < 0) ||
  decide ((rowsOf b : Int) ≤ ty st isRow i) ||
  decide ((colsOf b : Int) ≤ tx st isRow i)

/-- accumulator of previewStatus's letter loop -/
structure PSAcc where
  overflow : Bool
  conflict : Bool
  rack : List Char
  need : List (Char × Nat)
deriving DecidableEq, Repr

/-- one iteration of previewStatus's loop, at letter index `i` -/
def psStep (b : Board) (st : Int × Int) (isRow : Bool) (i : Nat) (letter : Char)
    (acc : PSAcc) : PSAcc :=
  if oobB b st isRow i then { acc with overflow := true }
  else
    let onBoard := cellAtI b (tx st isRow i) (ty st isRow i)
    let acc1 :=
      if onBoard ≠ some '.' ∧ onBoard ≠ some letter then
        { acc with conflict := true }
      else acc
    if onBoard = some '.' then
      match removeFirst acc1.rack letter with
      | some r2 => { acc1 with rack := r2 }
      | none => { acc1 with need := bump acc1.need letter }
    else acc1

/-- previewStatus's loop over the remaining letters, `i` the index of the
first of them in the whole word -/
def psLoop (b : Board) (st : Int × Int) (isRow : Bool) :
    Nat → List Char → PSAcc → PSAcc
  | _, [], acc => acc
  | i, c :: rest, acc => psLoop b st isRow (i + 1) rest (psStep b st isRow i c acc)

/-- `previewStatus()`, variant A (lines 453-498) -/
def previewStatusA (s : State) : PreviewStatus :=
  match s.board, s.start, s.word with
  | some b, some st, c0 :: wrest =>
    let w := (c0 :: wrest).map Char.toUpper
    let isRow := decide (s.direction = some Dir.row)
    let rack := handsGet s.hands s.currentPlayer
    let acc := psLoop b st isRow 0 w
      { overflow := false, conflict := false, rack := rack, need := [] }
    { ok := !acc.overflow && !acc.conflict && acc.need.isEmpty,
      overflow := acc.overflow, conflict := acc.conflict, missing := acc.need }
  | _, _, _ => { ok := false, overflow := false, conflict := false, missing := [] }

-- ## loadGame success effects, both variants

/-- the data a completed loadGame brings back from the remote service -/
structure Fetched where
  board : Board
  currentPlayer : Nat
  hands : List (Nat × List Char)
deriving DecidableEq, Repr

/-- centre cell seeded into a null start:
`(floor(cols / 2), floor(rows / 2))` -/
def centerOf (b : Board) : Int × Int :=
  ((colsOf b / 2 : Nat), (rowsOf b / 2 : Nat))

/-- the state effect of a successful `loadGame(gid)`, variant A (lines
120-189): seeds/preserves the start, leaves the composed word alone -/
def loadGameA (s : State) (gid : String) (f : Fetched) : State :=
  let s1 := { s with loading := true, error := none, gameId := some gid }
  let st := s1.start.getD (centerOf f.board)
  let s2 := { s1 with board := some f.board, currentPlayer := f.currentPlayer,
                      hands := f.hands, start := some st }
  { s2 with loading := false }

/-- the state effect of a successful `loadGame(gid)`, variant B (lines
592-649): additionally resets the composed word and its index map -/
def loadGameB (s : State) (gid : String) (f : Fetched) : State :=
  let s1 := { s with loading := true, error := none, gameId := some gid }
  let st := s1.start.getD (centerOf f.board)
  let s2 := { s1 with board := some f.board, currentPlayer := f.currentPlayer,
                      hands := f.hands, start := some st,
                      word := [], wordRackIndices := [] }
  { s2 with loading := false }

-- ## The public synchronous operations of variant A, for reachability

/-- one synchronous public store command (variant A semantics) -/
inductive Op where
  | setStart (x y : Int)
  | setDirection (d : Dir)
  | setWord (w : List Char)
  | clear
  | backspaceWord
  | appendFromRack (i : Nat)
  | appendFromKeyboard (c : Char)
  | startExchange
  | toggleExchangeIndex (i : Nat)
  | cancelExchange
  | placeLetterPreview (x y : Int) (c : Char) (ri : Option Nat)
deriving DecidableEq, Repr

def applyOp (s : State) : Op → State
  | .setStart x y => setStart s x y
  | .setDirection d => setDirection s d
  | .setWord w => setWord s w
  | .clear => clear s
  | .backspaceWord => backspaceWord s
  | .appendFromRack i => appendFromRack s i
  | .appendFromKeyboard c => appendFromKeyboard s c
  | .startExchange => startExchange s
  | .toggleExchangeIndex i => toggleExchangeIndex s i
  | .cancelExchange => cancelExchange s
  | .placeLetterPreview x y c ri => placeLetterPreviewA s x y c ri

def runOps (s : State) (ops : List Op) : State := ops.foldl applyOp s

-- ## Reference (spec-side) characterization of the preview verdict, for C1

/-- the target cell of letter index `i` is in bounds and empty -/
def emptyAtB (b : Board) (st : Int × Int) (isRow : Bool) (i : Nat) : Bool :=
  !oobB b st isRow i &&
  (cellAtI b (tx st isRow i) (ty st isRow i) == some '.')

/-- the target cell of letter index `i` is in bounds, occupied, and holds a
letter different from `letter` -/
def confB (b : Board) (st : Int × Int) (isRow : Bool) (i : Nat)
    (letter : Char) : Bool :=
  !oobB b st isRow i &&
  decide (cellAtI b (tx st isRow i) (ty st isRow i) ≠ some '.') &&
  decide (cellAtI b (tx st isRow i) (ty st isRow i) ≠ some letter)

/-- the conflict of the claim's wording at index `i` of word `w` -/
def conflictAtB (b : Board) (st : Int × Int) (isRow : Bool) (w : List Char)
    (i : Nat) : Bool :=
  confB b st isRow i (w.getD i ' ')

/-- how many empty target cells among the remaining letters (the first of
them at absolute index `i`) call for letter `c` -/
def demandFrom (b : Board) (st : Int × Int) (isRow : Bool) (c : Char) :
    Nat → List Char → Nat
  | _, [] => 0
  | i, d :: rest =>
    (if emptyAtB b st isRow i ∧ d = c then 1 else 0) +
      demandFrom b st isRow c (i + 1) rest

/-- how many empty target cells of word `w` call for letter `c` -/
def demand (b : Board) (st : Int × Int) (isRow : Bool) (w : List Char)
    (c : Char) : Nat :=
  demandFrom b st isRow c 0 w

/-- the word previewStatus validates: the composed word, uppercased -/
def wordUp (s : State) : List Char := s.word.map Char.toUpper

/-- how previewStatus reads the direction field -/
def isRowOf (s : State) : Bool := decide (s.direction = some Dir.row)

/-- the current player's rack -/
def rackOf (s : State) : List Char := handsGet s.hands s.currentPlayer

/-- The reference verdict of claim C1, stated over the state previewStatus
reads: overflow iff some target cell is out of bounds; conflict iff some
occupied target cell mismatches its word letter; missing records, per
letter, the shortfall of the rack pool against the empty target cells; ok
iff none of the three failures occurs. -/
def C1Spec (s : State) (b : Board) (st : Int × Int) : Prop :=
  ((previewStatusA s).overflow = true ↔
     ∃ i, i < (wordUp s).length ∧ oobB b st (isRowOf s) i = true) ∧
  ((previewStatusA s).conflict = true ↔
     ∃ i, i < (wordUp s).length ∧
       conflictAtB b st (isRowOf s) (wordUp s) i = true) ∧
  (∀ c : Char, needCount c (previewStatusA s).missing
      = demand b st (isRowOf s) (wordUp s) c - countc c (rackOf s)) ∧
  ((previewStatusA s).ok = true ↔
     (¬ ∃ i, i < (wordUp s).length ∧ oobB b st (isRowOf s) i = true) ∧
     (¬ ∃ i, i < (wordUp s).length ∧
        conflictAtB b st (isRowOf s) (wordUp s) i = true) ∧
     (∀ c : Char, demand b st (isRowOf s) (wordUp s) c ≤ countc c (rackOf s)))

/-- flattened form of one previewStatus loop iteration: the overflow and
conflict flags accumulate disjunctively and the rack pool / shortfall
record evolve only at in-bounds empty target cells -/
def psStepFlat (b : Board) (st : Int × Int) (isRow : Bool) (i : Nat)
    (d : Char) (acc : PSAcc) : PSAcc where
  overflow := acc.overflow || oobB b st isRow i
  conflict := acc.conflict || confB b st isRow i d
  rack :=
    if emptyAtB b st isRow i then (removeFirst acc.rack d).getD acc.rack
    else acc.rack
  need :=
    if emptyAtB b st isRow i then
      (if (removeFirst acc.rack d).isSome then acc.need else bump acc.need d)
    else acc.need

/-- the verdict previewStatus computes once board, start and a non-empty
word are at hand -/
def previewStatusCompute (b : Board) (st : Int × Int) (isRow : Bool)
    (w rack : List Char) : PreviewStatus :=
  let acc := psLoop b st isRow 0 w
    { overflow := false, conflict := false, rack := rack, need := [] }
  { ok := !acc.overflow && !acc.conflict && acc.need.isEmpty,
    overflow := acc.overflow, conflict := acc.conflict, missing := acc.need }

/-- whether the drop cell leaves the line fixed by the direction -/
def offLineB (d : Dir) (st : Int × Int) (x y : Int) : Bool :=
  match d with
  | .row => y != st.2
  | .col => x != st.1

/-- the word offset the drop cell addresses along the fixed direction -/
def offIdx (d : Dir) (st : Int × Int) (x y : Int) : Int :=
  match d with
  | .row => x - st.1
  | .col => y - st.2

/-- the length invariant of the composer: word and its rack-index map stay
in lockstep -/
def lenInv (s : State) : Prop := s.word.length = s.wordRackIndices.length

-- ## Concrete fixtures used by witnesses and counterexamples

/-- one-row board of three empty cells -/
def bW : Board := [['.', '.', '.']]

/-- composing the word AAA rightwards from (0,0) with rack A, A, T -/
def sW : State := { initialState with
  board := some bW, start := some (0, 0), direction := some Dir.row,
  word := ['A', 'A', 'A'], hands := [(0, ['A', 'A', 'T'])] }

/-- composing the word CA rightwards from (0,0) -/
def sCA : State := { initialState with
  board := some bW, start := some (0, 0), direction := some Dir.row,
  word := ['C', 'A'], wordRackIndices := [none, none] }

/-- one letter placed at (5,5), direction still undetermined -/
def sOne : State := { initialState with
  board := some bW, start := some (5, 5), direction := none,
  word := ['A'], wordRackIndices := [none] }

/-- rack slot 0 already committed to the composed word -/
def sRe : State := { initialState with
  hands := [(0, ['A'])], word := ['A'], wordRackIndices := [some 0] }

/-- a state whose direction has been fixed to column -/
def sDir : State := { initialState with
  direction := some Dir.col, word := ['A'], wordRackIndices := [none] }

/-- enter exchange mode, then type a word -/
def opsC7 : List Op := [Op.startExchange, Op.setWord ['A']]

/-- a one-cell empty board with one rack tile -/
def sStamp : State := { initialState with
  board := some [['.']], hands := [(0, ['A'])] }

/-- data brought back by a completed loadGame: a 3 by 3 empty board -/
def fRef : Fetched where
  board := [['.', '.', '.'], ['.', '.', '.'], ['.', '.', '.']]
  currentPlayer := 0
  hands := []

/-- a game id -/
def gidEx : String := "g"

/-- a move being composed when the refresh completes -/
def sComposing : State := { initialState with
  word := ['A'], wordRackIndices := [some 0], start := some (0, 0) }

/-- exchange confirmed while every selected index is stale -/
def sStale : State := { initialState with
  gameId := some gidEx, exchanging := true, exchangeSelection := [5, 9],
  hands := [(0, ['A'])], currentPlayer := 0 }

-- ## Helper lemmas about the rack pool and the shortfall record

theorem removeFirst_none_count (d : Char) : ∀ (l : List Char),
    removeFirst l d = none → countc d l = 0 := by
  intro l
  induction l with
  | nil => intro _; rfl
  | cons r rest ih =>
    intro h
    unfold removeFirst at h
    by_cases hr : r = d
    · rw [if_pos hr] at h; simp at h
    · rw [if_neg hr] at h
      cases hx : removeFirst rest d with
      | none => simp [countc, hr, ih hx]
      | some l2 => rw [hx] at h; simp at h

theorem removeFirst_count_self (d : Char) : ∀ (l r : List Char),
    removeFirst l d = some r → countc d r + 1 = countc d l := by
  intro l
  induction l with
  | nil => intro r h; simp [removeFirst] at h
  | cons a rest ih =>
    intro r h
    unfold removeFirst at h
    by_cases ha : a = d
    · rw [if_pos ha] at h
      injection h with h
      subst h
      simp [countc, ha]
      omega
    · rw [if_neg ha] at h
      cases hx : removeFirst rest d with
      | none => rw [hx] at h; simp at h
      | some r2 =>
        rw [hx] at h
        simp at h
        subst h
        have := ih r2 hx
        simp [countc, ha]
        omega

theorem removeFirst_count_other (c d : Char) (hne : d ≠ c) :
    ∀ (l r : List Char), removeFirst l d = some r → countc c r = countc c l := by
  intro l
  induction l with
  | nil => intro r h; simp [removeFirst] at h
  | cons a rest ih =>
    intro r h
    unfold removeFirst at h
    by_cases ha : a = d
    · rw [if_pos ha] at h
      injection h with h
      subst h
      have hac : ¬ a = c := fun hc => hne (ha ▸ hc)
      simp [countc, hac]
    · rw [if_neg ha] at h
      cases hx : removeFirst rest d with
      | none => rw [hx] at h; simp at h
      | some r2 =>
        rw [hx] at h
        simp at h
        subst h
        simp [countc, ih r2 hx]

theorem bump_needCount (q c : Char) : ∀ (l : List (Char × Nat)),
    needCount q (bump l c) = needCount q l + (if c = q then 1 else 0) := by
  intro l
  induction l with
  | nil => simp [bump, needCount]
  | cons e rest ih =>
    obtain ⟨d, n⟩ := e
    unfold bump
    by_cases hd : d = c
    · subst hd
      rw [if_pos rfl]
      by_cases hq : d = q
      · subst hq; simp [needCount]; omega
      · simp [needCount, hq]
    · rw [if_neg hd]
      simp [needCount, ih, Nat.add_assoc]

theorem bump_pos (c : Char) : ∀ (l : List (Char × Nat)),
    (∀ p ∈ l, 0 < p.2) → ∀ p ∈ bump l c, 0 < p.2 := by
  intro l
  induction l with
  | nil =>
    intro _ p hp
    simp [bump] at hp
    subst hp
    simp
  | cons e rest ih =>
    obtain ⟨d, n⟩ := e
    intro hl p hp
    unfold bump at hp
    by_cases hd : d = c
    · rw [if_pos hd] at hp
      rcases List.mem_cons.mp hp with h | h
      · subst h; simp
      · exact hl p (List.mem_cons_of_mem _ h)
    · rw [if_neg hd] at hp
      rcases List.mem_cons.mp hp with h | h
      · subst h; exact hl (d, n) (List.mem_cons_self _ _)
      · exact ih (fun q hq => hl q (List.mem_cons_of_mem _ hq)) p h

theorem need_eq_nil : ∀ (l : List (Char × Nat)),
    (∀ p ∈ l, 0 < p.2) → (∀ c, needCount c l = 0) → l = [] := by
  intro l hpos hz
  cases l with
  | nil => rfl
  | cons e rest =>
    obtain ⟨d, n⟩ := e
    have h1 := hz d
    simp [needCount] at h1
    have h2 := hpos (d, n) (List.mem_cons_self _ _)
    simp at h2
    omega

theorem exists_lt_succ_shift {P : Nat → Prop} {n : Nat} :
    (∃ j, j < n + 1 ∧ P j) ↔ P 0 ∨ ∃ j, j < n ∧ P (j + 1) := by
  constructor
  · rintro ⟨j, hj, hp⟩
    cases j with
    | zero => exact Or.inl hp
    | succ k => exact Or.inr ⟨k, by omega, hp⟩
  · rintro (hp | ⟨j, hj, hp⟩)
    · exact ⟨0, by omega, hp⟩
    · exact ⟨j + 1, by omega, hp⟩

-- ## The previewStatus loop versus the reference quantities

theorem psStepFlat_overflow (b : Board) (st : Int × Int) (isRow : Bool)
    (i : Nat) (d : Char) (acc : PSAcc) :
    (psStepFlat b st isRow i d acc).overflow
      = (acc.overflow || oobB b st isRow i) := rfl

theorem psStepFlat_conflict (b : Board) (st : Int × Int) (isRow : Bool)
    (i : Nat) (d : Char) (acc : PSAcc) :
    (psStepFlat b st isRow i d acc).conflict
      = (acc.conflict || confB b st isRow i d) := rfl

theorem psStepFlat_rack (b : Board) (st : Int × Int) (isRow : Bool)
    (i : Nat) (d : Char) (acc : PSAcc) :
    (psStepFlat b st isRow i d acc).rack
      = (if emptyAtB b st isRow i then (removeFirst acc.rack d).getD acc.rack
         else acc.rack) := rfl

theorem psStepFlat_need (b : Board) (st : Int × Int) (isRow : Bool)
    (i : Nat) (d : Char) (acc : PSAcc) :
    (psStepFlat b st isRow i d acc).need
      = (if emptyAtB b st isRow i then
           (if (removeFirst acc.rack d).isSome then acc.need
            else bump acc.need d)
         else acc.need) := rfl

theorem demandFrom_cons (b : Board) (st : Int × Int) (isRow : Bool)
    (c d : Char) (i : Nat) (rest : List Char) :
    demandFrom b st isRow c i (d :: rest)
      = (if emptyAtB b st isRow i ∧ d = c then 1 else 0) +
          demandFrom b st isRow c (i + 1) rest := rfl

theorem psStep_eq (b : Board) (st : Int × Int) (isRow : Bool) (i : Nat)
    (d : Char) (acc : PSAcc) :
    psStep b st isRow i d acc = psStepFlat b st isRow i d acc := by
  obtain ⟨ov, cf, rk, nd⟩ := acc
  by_cases h1 : oobB b st isRow i = true
  · simp [psStep, psStepFlat, emptyAtB, confB, h1]
  · have h1' : oobB b st isRow i = false := by
      revert h1; cases oobB b st isRow i <;> simp
    by_cases h2 : cellAtI b (tx st isRow i) (ty st isRow i) = some '.'
    · cases h3 : removeFirst rk d with
      | some r2 => simp [psStep, psStepFlat, emptyAtB, confB, h1', h2, h3]
      | none => simp [psStep, psStepFlat, emptyAtB, confB, h1', h2, h3]
    · by_cases h4 : cellAtI b (tx st isRow i) (ty st isRow i) = some d
      · have hd : ¬ d = '.' := by
          intro hh
          exact h2 (h4.trans (by rw [hh]))
        simp [psStep, psStepFlat, emptyAtB, confB, h1', h2, h4, hd]
      · simp [psStep, psStepFlat, emptyAtB, confB, h1', h2, h4]

theorem psLoop_overflow (b : Board) (st : Int × Int) (isRow : Bool) :
    ∀ (ws : List Char) (i : Nat) (acc : PSAcc),
    ((psLoop b st isRow i ws acc).overflow = true ↔
      acc.overflow = true ∨ ∃ j, j < ws.length ∧ oobB b st isRow (i + j) = true) := by
  intro ws
  induction ws with
  | nil =>
    intro i acc
    simp [psLoop]
  | cons d rest ih =>
    intro i acc
    rw [psLoop, psStep_eq, ih]
    rw [show (d :: rest).length = rest.length + 1 from rfl]
    rw [exists_lt_succ_shift (P := fun j => oobB b st isRow (i + j) = true)]
    rw [psStepFlat_overflow]
    simp only [Bool.or_eq_true, Nat.add_succ, Nat.succ_add, Nat.add_zero]
    tauto

theorem psLoop_conflict (b : Board) (st : Int × Int) (isRow : Bool) :
    ∀ (ws : List Char) (i : Nat) (acc : PSAcc),
    ((psLoop b st isRow i ws acc).conflict = true ↔
      acc.conflict = true ∨
        ∃ j, j < ws.length ∧ confB b st isRow (i + j) (ws.getD j ' ') = true) := by
  intro ws
  induction ws with
  | nil =>
    intro i acc
    simp [psLoop]
  | cons d rest ih =>
    intro i acc
    rw [psLoop, psStep_eq, ih]
    rw [show (d :: rest).length = rest.length + 1 from rfl]
    rw [exists_lt_succ_shift
      (P := fun j => confB b st isRow (i + j) ((d :: rest).getD j ' ') = true)]
    rw [psStepFlat_conflict]
    simp only [Bool.or_eq_true, Nat.add_succ, Nat.succ_add, Nat.add_zero,
      List.getD_cons_zero, List.getD_cons_succ]
    tauto

theorem psLoop_need_rack (b : Board) (st : Int × Int) (isRow : Bool) (c : Char) :
    ∀ (ws : List Char) (i : Nat) (acc : PSAcc),
    needCount c (psLoop b st isRow i ws acc).need
        = needCount c acc.need + (demandFrom b st isRow c i ws - countc c acc.rack)
    ∧ countc c (psLoop b st isRow i ws acc).rack
        = countc c acc.rack - demandFrom b st isRow c i ws := by
  intro ws
  induction ws with
  | nil =>
    intro i acc
    simp [psLoop, demandFrom]
  | cons d rest ih =>
    intro i acc
    rw [psLoop, psStep_eq]
    obtain ⟨ih1, ih2⟩ := ih (i + 1) (psStepFlat b st isRow i d acc)
    rw [ih1, ih2, psStepFlat_need, psStepFlat_rack, demandFrom_cons]
    by_cases he : emptyAtB b st isRow i = true
    · cases h3 : removeFirst acc.rack d with
      | some r2 =>
        by_cases hdc : d = c
        · subst hdc
          have h4 := removeFirst_count_self d acc.rack r2 h3
          simp [he, h3]
          constructor <;> omega
        · have h4 := removeFirst_count_other c d hdc acc.rack r2 h3
          simp [he, h3, hdc, h4]
      | none =>
        have h0 : countc d acc.rack = 0 := removeFirst_none_count d acc.rack h3
        have hb := bump_needCount c d acc.need
        by_cases hdc : d = c
        · subst hdc
          simp [he, h3, hb]
          constructor <;> omega
        · simp [he, h3, hdc, hb]
    · have he' : ¬ (emptyAtB b st isRow i = true ∧ d = c) := fun hc => he hc.1
      simp [he, he']

theorem psLoop_need_pos (b : Board) (st : Int × Int) (isRow : Bool) :
    ∀ (ws : List Char) (i : Nat) (acc : PSAcc),
    (∀ p ∈ acc.need, 0 < p.2) →
    ∀ p ∈ (psLoop b st isRow i ws acc).need, 0 < p.2 := by
  intro ws
  induction ws with
  | nil =>
    intro i acc h
    simpa [psLoop] using h
  | cons d rest ih =>
    intro i acc h
    rw [psLoop, psStep_eq]
    apply ih
    rw [psStepFlat_need]
    by_cases he : emptyAtB b st isRow i = true
    · cases h3 : removeFirst acc.rack d with
      | some r2 => simp [he, h3]; exact fun a n hm => h (a, n) hm
      | none => simp [he, h3]; exact fun a n hm => bump_pos d acc.need h (a, n) hm
    · simp [he]
      exact fun a n hm => h (a, n) hm

-- ## previewStatus in terms of its loop

theorem previewStatusCompute_overflow (b : Board) (st : Int × Int)
    (isRow : Bool) (w rack : List Char) :
    (previewStatusCompute b st isRow w rack).overflow
      = (psLoop b st isRow 0 w ⟨false, false, rack, []⟩).overflow := rfl

theorem previewStatusCompute_conflict (b : Board) (st : Int × Int)
    (isRow : Bool) (w rack : List Char) :
    (previewStatusCompute b st isRow w rack).conflict
      = (psLoop b st isRow 0 w ⟨false, false, rack, []⟩).conflict := rfl

theorem previewStatusCompute_missing (b : Board) (st : Int × Int)
    (isRow : Bool) (w rack : List Char) :
    (previewStatusCompute b st isRow w rack).missing
      = (psLoop b st isRow 0 w ⟨false, false, rack, []⟩).need := rfl

theorem previewStatusCompute_ok (b : Board) (st : Int × Int)
    (isRow : Bool) (w rack : List Char) :
    (previewStatusCompute b st isRow w rack).ok
      = (!(psLoop b st isRow 0 w ⟨false, false, rack, []⟩).overflow &&
         !(psLoop b st isRow 0 w ⟨false, false, rack, []⟩).conflict &&
         (psLoop b st isRow 0 w ⟨false, false, rack, []⟩).need.isEmpty) := rfl

theorem previewStatusA_pos (s : State) (b : Board) (st : Int × Int)
    (c0 : Char) (wrest : List Char) (hb : s.board = some b)
    (hst : s.start = some st) (hw : s.word = c0 :: wrest) :
    previewStatusA s
      = previewStatusCompute b st (isRowOf s)
          ((c0 :: wrest).map Char.toUpper) (rackOf s) := by
  unfold previewStatusA
  rw [hb, hst, hw]
  rfl

-- ## Claim C1

/-- C1: for every store state with a non-null board, a non-null start and a
non-empty word, previewStatus() returns the reference verdict (overflow iff
some target cell is out of bounds, conflict iff some occupied target cell
holds a different letter, missing records per letter the shortfall of the
rack pool consumed without replacement against the empty target cells, and
ok iff neither overflow nor conflict and missing is empty); when board,
start, or word is absent, the verdict has ok = false. -/
theorem claim_C1 :
    (∀ (s : State) (b : Board) (st : Int × Int),
      s.board = some b → s.start = some st → s.word ≠ [] → C1Spec s b st) ∧
    (∀ s : State, s.board = none ∨ s.start = none ∨ s.word = [] →
      (previewStatusA s).ok = false) := by
  constructor
  · intro s b st hb hst hw
    obtain ⟨c0, wrest, hw0⟩ : ∃ c0 wrest, s.word = c0 :: wrest := by
      cases h : s.word with
      | nil => exact absurd h hw
      | cons a l => exact ⟨a, l, rfl⟩
    have hps := previewStatusA_pos s b st c0 wrest hb hst hw0
    have hwu : wordUp s = (c0 :: wrest).map Char.toUpper := by
      rw [wordUp, hw0]
    unfold C1Spec
    rw [hps, hwu]
    rw [previewStatusCompute_overflow, previewStatusCompute_conflict,
      previewStatusCompute_missing, previewStatusCompute_ok]
    generalize (c0 :: wrest).map Char.toUpper = w
    have hov := psLoop_overflow b st (isRowOf s) w 0 ⟨false, false, rackOf s, []⟩
    have hcf := psLoop_conflict b st (isRowOf s) w 0 ⟨false, false, rackOf s, []⟩
    simp only [show (⟨false, false, rackOf s, []⟩ : PSAcc).overflow = false
        from rfl,
      show (⟨false, false, rackOf s, []⟩ : PSAcc).conflict = false from rfl,
      Bool.false_eq_true, false_or, Nat.zero_add] at hov hcf
    refine ⟨?_, ?_, ?_, ?_⟩
    · exact hov
    · simp only [conflictAtB]
      exact hcf
    · intro ch
      have h3 := (psLoop_need_rack b st (isRowOf s) ch w 0
        ⟨false, false, rackOf s, []⟩).1
      simpa [needCount, demand] using h3
    · constructor
      · intro hok
        simp only [Bool.and_eq_true, Bool.not_eq_true'] at hok
        have hne : (psLoop b st (isRowOf s) 0 w
            ⟨false, false, rackOf s, []⟩).need = [] := by
          simpa using hok.2
        refine ⟨?_, ?_, ?_⟩
        · intro hex
          have h5 := hov.mpr hex
          rw [hok.1.1] at h5
          exact Bool.noConfusion h5
        · intro hex
          simp only [conflictAtB] at hex
          have h5 := hcf.mpr hex
          rw [hok.1.2] at h5
          exact Bool.noConfusion h5
        · intro ch
          have h3 := (psLoop_need_rack b st (isRowOf s) ch w 0
            ⟨false, false, rackOf s, []⟩).1
          rw [hne] at h3
          simp [needCount, demand] at h3 ⊢
          omega
      · rintro ⟨h1, h2, h3⟩
        have hovf : (psLoop b st (isRowOf s) 0 w
            ⟨false, false, rackOf s, []⟩).overflow = false := by
          cases hA : (psLoop b st (isRowOf s) 0 w
            ⟨false, false, rackOf s, []⟩).overflow
          · rfl
          · exact absurd (hov.mp hA) h1
        have hcff : (psLoop b st (isRowOf s) 0 w
            ⟨false, false, rackOf s, []⟩).conflict = false := by
          cases hA : (psLoop b st (isRowOf s) 0 w
            ⟨false, false, rackOf s, []⟩).conflict
          · rfl
          · refine absurd (hcf.mp hA) ?_
            simpa only [conflictAtB] using h2
        have hneed : (psLoop b st (isRowOf s) 0 w
            ⟨false, false, rackOf s, []⟩).need = [] := by
          apply need_eq_nil
          · exact psLoop_need_pos b st (isRowOf s) w 0
              ⟨false, false, rackOf s, []⟩
              (fun p hp => absurd hp (List.not_mem_nil p))
          · intro ch
            have h4 := (psLoop_need_rack b st (isRowOf s) ch w 0
              ⟨false, false, rackOf s, []⟩).1
            have h5 := h3 ch
            simp [needCount, demand] at h4 h5
            omega
        rw [hovf, hcff, hneed]
        rfl
  · intro s h
    obtain ⟨g, bo, cp, hs, stf, dr, wd, wr, ex, sel, er, lo⟩ := s
    dsimp only at h
    cases bo <;> cases stf <;> cases wd <;> try rfl
    rcases h with h | h | h <;> simp at h

/-- Witness for C1: the reference verdict holds at a concrete composing
state, and the verdict of the initial state (null board) has ok false. -/
theorem claim_C1_w :
    C1Spec sW bW (0, 0) ∧ (previewStatusA initialState).ok = false :=
  ⟨claim_C1.1 sW bW (0, 0) rfl rfl (by decide),
   claim_C1.2 initialState (Or.inl rfl)⟩

-- ## Claim C2

/-- Counterexample to C2: with start (0,0), direction row and word CA, a
drop on the interior, already-filled cell (1,0) is accepted and changes the
state, overwriting the letter at offset 1, instead of being rejected. -/
theorem claim_C2_cex :
    sCA.direction = some Dir.row ∧ sCA.word = ['C', 'A'] ∧
    sCA.start = some (0, 0) ∧
    placeLetterPreviewB sCA 1 0 'X' none ≠ sCA ∧
    (placeLetterPreviewB sCA 1 0 'X' none).word = ['C', 'X'] := by
  decide

/-- C2 amended: with direction fixed and a non-empty word,
placeLetterPreview rejects (no state change) a drop off the fixed line,
before the start, or past the cell right after the word's end; a drop on
the exact next cell appends the letter; a drop on an interior offset of the
word is accepted as well and overwrites the letter at that offset in
place. -/
theorem claim_C2_amended (s : State) (b : Board) (st : Int × Int) (d : Dir)
    (x y : Int) (letter : Char) (ri : Option Nat)
    (hb : s.board = some b) (hst : s.start = some st)
    (hd : s.direction = some d) (hw : s.word ≠ [])
    (hlen : s.wordRackIndices.length = s.word.length) :
    (offLineB d st x y = true → placeLetterPreviewB s x y letter ri = s) ∧
    (offIdx d st x y < 0 → placeLetterPreviewB s x y letter ri = s) ∧
    ((s.word.length : Int) < offIdx d st x y →
      placeLetterPreviewB s x y letter ri = s) ∧
    (offLineB d st x y = false → offIdx d st x y = (s.word.length : Int) →
      placeLetterPreviewB s x y letter ri
        = { s with start := some st, direction := some d,
                   word := s.word ++ [letter.toUpper],
                   wordRackIndices := s.wordRackIndices ++ [ri],
                   error := none }) ∧
    (offLineB d st x y = false → 0 ≤ offIdx d st x y →
      offIdx d st x y < (s.word.length : Int) →
      placeLetterPreviewB s x y letter ri
        = { s with start := some st, direction := some d,
                   word := s.word.set (offIdx d st x y).toNat letter.toUpper,
                   wordRackIndices :=
                     (match ri with
                      | some r =>
                        s.wordRackIndices.set (offIdx d st x y).toNat (some r)
                      | none => s.wordRackIndices),
                   error := none }) := by
  obtain ⟨g, bo, cp, hs, stf, dr, wd, wr, ex, sel, er, lo⟩ := s
  dsimp only at hb hst hd hw hlen ⊢
  subst hb
  subst hst
  subst hd
  have hpad : padTo wr wd.length = wr := by
    simp [padTo, hlen]
  cases d with
  | row =>
    refine ⟨?_, ?_, ?_, ?_, ?_⟩
    · intro h
      have hy : y ≠ st.2 := by simpa [offLineB] using h
      simp [placeLetterPreviewB, hw, hy]
    · intro h
      dsimp only [offIdx] at h
      by_cases hy : y = st.2
      · simp [placeLetterPreviewB, hw, hy, h]
      · simp [placeLetterPreviewB, hw, hy]
    · intro h
      dsimp only [offIdx] at h
      by_cases hy : y = st.2
      · have hn0 : ¬ (x - st.1 < 0) := by omega
        simp [placeLetterPreviewB, hw, hy, h, hn0]
      · simp [placeLetterPreviewB, hw, hy]
    · intro h1 h2
      have hy : y = st.2 := by simpa [offLineB] using h1
      dsimp only [offIdx] at h2
      have hn0 : ¬ (x - st.1 < 0) := by omega
      have hn1 : ¬ ((wd.length : Int) < x - st.1) := by omega
      simp [placeLetterPreviewB, hw, hy, hn0, hn1, h2, hpad]
    · intro h1 h0 hlt
      have hy : y = st.2 := by simpa [offLineB] using h1
      dsimp only [offIdx] at h0 hlt ⊢
      have hn0 : ¬ (x - st.1 < 0) := by omega
      have hn1 : ¬ ((wd.length : Int) < x - st.1) := by omega
      have hne : ¬ (x - st.1 = (wd.length : Int)) := by omega
      cases ri with
      | some r => simp [placeLetterPreviewB, hw, hy, hn0, hn1, hne, hpad]
      | none => simp [placeLetterPreviewB, hw, hy, hn0, hn1, hne, hpad]
  | col =>
    refine ⟨?_, ?_, ?_, ?_, ?_⟩
    · intro h
      have hx : x ≠ st.1 := by simpa [offLineB] using h
      simp [placeLetterPreviewB, hw, hx]
    · intro h
      dsimp only [offIdx] at h
      by_cases hx : x = st.1
      · simp [placeLetterPreviewB, hw, hx, h]
      · simp [placeLetterPreviewB, hw, hx]
    · intro h
      dsimp only [offIdx] at h
      by_cases hx : x = st.1
      · have hn0 : ¬ (y - st.2 < 0) := by omega
        simp [placeLetterPreviewB, hw, hx, h, hn0]
      · simp [placeLetterPreviewB, hw, hx]
    · intro h1 h2
      have hx : x = st.1 := by simpa [offLineB] using h1
      dsimp only [offIdx] at h2
      have hn0 : ¬ (y - st.2 < 0) := by omega
      have hn1 : ¬ ((wd.length : Int) < y - st.2) := by omega
      simp [placeLetterPreviewB, hw, hx, hn0, hn1, h2, hpad]
    · intro h1 h0 hlt
      have hx : x = st.1 := by simpa [offLineB] using h1
      dsimp only [offIdx] at h0 hlt ⊢
      have hn0 : ¬ (y - st.2 < 0) := by omega
      have hn1 : ¬ ((wd.length : Int) < y - st.2) := by omega
      have hne : ¬ (y - st.2 = (wd.length : Int)) := by omega
      cases ri with
      | some r => simp [placeLetterPreviewB, hw, hx, hn0, hn1, hne, hpad]
      | none => simp [placeLetterPreviewB, hw, hx, hn0, hn1, hne, hpad]

/-- Witness for the amended C2: from word CA at (0,0) along the row, a drop
on the exact next cell (2,0) appends the letter. -/
theorem claim_C2_w :
    placeLetterPreviewB sCA 2 0 'X' none
      = { sCA with start := some (0, 0), direction := some Dir.row,
                   word := sCA.word ++ ['X'.toUpper],
                   wordRackIndices := sCA.wordRackIndices ++ [none],
                   error := none } :=
  (claim_C2_amended sCA bW (0, 0) Dir.row 2 0 'X' none rfl rfl rfl
    (by decide) (by decide)).2.2.2.1 (by decide) (by decide)

-- ## Claim C3

/-- C3: with exactly one letter composed and the direction still
undetermined, placeLetterPreview accepts only the cell one step right of
the start (fixing direction row and appending) or one step below it
(fixing direction col and appending); every other drop cell leaves the
state unchanged. -/
theorem claim_C3 (s : State) (b : Board) (st : Int × Int) (w0 : Char)
    (letter : Char) (ri : Option Nat)
    (hb : s.board = some b) (hst : s.start = some st)
    (hd : s.direction = none) (hw : s.word = [w0])
    (hlen : s.wordRackIndices.length = 1) :
    (placeLetterPreviewB s (st.1 + 1) st.2 letter ri
       = { s with start := some st, direction := some Dir.row,
                  word := s.word ++ [letter.toUpper],
                  wordRackIndices := s.wordRackIndices ++ [ri],
                  error := none }) ∧
    (placeLetterPreviewB s st.1 (st.2 + 1) letter ri
       = { s with start := some st, direction := some Dir.col,
                  word := s.word ++ [letter.toUpper],
                  wordRackIndices := s.wordRackIndices ++ [ri],
                  error := none }) ∧
    (∀ x y : Int, ¬ (x = st.1 + 1 ∧ y = st.2) → ¬ (x = st.1 ∧ y = st.2 + 1) →
      placeLetterPreviewB s x y letter ri = s) := by
  obtain ⟨g, bo, cp, hs, stf, dr, wd, wr, ex, sel, er, lo⟩ := s
  dsimp only at hb hst hd hw hlen ⊢
  subst hb
  subst hst
  subst hd
  subst hw
  have hpad : padTo wr 1 = wr := by
    simp [padTo, hlen]
  refine ⟨?_, ?_, ?_⟩
  · have h1 : ¬ (st.1 + 1 = st.1) := by omega
    have h2 : st.1 + 1 - st.1 = (1 : Int) := by omega
    simp [placeLetterPreviewB, h1, h2, hpad]
  · have h1 : ¬ (st.2 + 1 = st.2) := by omega
    have h2 : st.2 + 1 - st.2 = (1 : Int) := by omega
    simp [placeLetterPreviewB, h1, h2, hpad]
  · intro x y hA hB
    by_cases hx : x = st.1
    · by_cases hy : y = st.2
      · simp [placeLetterPreviewB, hx, hy]
      · have hy1 : ¬ (y = st.2 + 1) := fun hc => hB ⟨hx, hc⟩
        by_cases hlt : y - st.2 < 0
        · simp [placeLetterPreviewB, hx, hy, hlt]
        · by_cases hgt : (1 : Int) < y - st.2
          · have hn : ¬ (y - st.2 < 0) := hlt
            simp [placeLetterPreviewB, hx, hy, hn, hgt]
          · exfalso
            omega
    · by_cases hy : y = st.2
      · have hx1 : ¬ (x = st.1 + 1) := fun hc => hA ⟨hc, hy⟩
        by_cases hlt : x - st.1 < 0
        · simp [placeLetterPreviewB, hx, hy, hlt]
        · by_cases hgt : (1 : Int) < x - st.1
          · have hn : ¬ (x - st.1 < 0) := hlt
            simp [placeLetterPreviewB, hx, hy, hn, hgt]
          · exfalso
            omega
      · simp [placeLetterPreviewB, hx, hy]

/-- Witness for C3: from start (5,5) with one letter and no direction, a
drop at (6,5) fixes the direction to row and appends the letter. -/
theorem claim_C3_w :
    placeLetterPreviewB sOne 6 5 'B' none
      = { sOne with start := some (5, 5), direction := some Dir.row,
                    word := sOne.word ++ ['B'.toUpper],
                    wordRackIndices := sOne.wordRackIndices ++ [none],
                    error := none } :=
  (claim_C3 sOne bW (5, 5) 'A' 'B' none rfl rfl rfl rfl rfl).1

-- ## Claim C4

/-- C4: every composer operation preserves the invariant that the composed
word and its rack-index map have the same length: appendFromRack,
appendFromKeyboard, setWord, backspaceWord, clear, placeLetterPreview, and
the local reset of a successful place. -/
theorem claim_C4 (s : State) (i : Nat) (c : Char) (w : List Char)
    (x y : Int) (ri : Option Nat) (h : lenInv s) :
    lenInv (appendFromRack s i) ∧ lenInv (appendFromKeyboard s c) ∧
    lenInv (setWord s w) ∧ lenInv (backspaceWord s) ∧ lenInv (clear s) ∧
    lenInv (placeLetterPreviewB s x y c ri) ∧ lenInv (placeResetLocal s) := by
  unfold lenInv at h
  refine ⟨?_, ?_, ?_, ?_, ?_, ?_, ?_⟩
  · unfold appendFromRack
    try dsimp only
    repeat' split
    all_goals first
      | exact h
      | (simp [lenInv, padTo]; try omega)
  · unfold appendFromKeyboard
    try dsimp only
    repeat' split
    all_goals first
      | exact h
      | (simp [lenInv, padTo]; try omega)
  · simp [setWord, lenInv]
  · unfold backspaceWord
    try dsimp only
    repeat' split
    all_goals first
      | exact h
      | (simp [lenInv, padTo]; try omega)
  · simp [clear, lenInv]
  · unfold placeLetterPreviewB
    try dsimp only
    repeat' split
    all_goals first
      | exact h
      | (simp [lenInv, padTo]; try omega)
  · simp [placeResetLocal, lenInv]

/-- Witness for C4: the invariant is preserved from a concrete state that
satisfies it. -/
theorem claim_C4_w :
    lenInv (appendFromRack sRe 0) ∧ lenInv (appendFromKeyboard sRe 'A') ∧
    lenInv (setWord sRe ['B']) ∧ lenInv (backspaceWord sRe) ∧
    lenInv (clear sRe) ∧ lenInv (placeLetterPreviewB sRe 0 0 'A' none) ∧
    lenInv (placeResetLocal sRe) :=
  claim_C4 sRe 0 'A' ['B'] 0 0 none rfl

-- ## Claim C5

/-- Counterexample to C5: appendFromRack performs no reused-index check:
with rack slot 0 already committed to the word, appendFromRack(0) is not a
no-op but appends the same tile a second time. -/
theorem claim_C5_cex :
    some 0 ∈ sRe.wordRackIndices ∧ sRe.exchanging = false ∧
    appendFromRack sRe 0 ≠ sRe ∧ (appendFromRack sRe 0).word = ['A', 'A'] := by
  decide

/-- C5 amended: appendFromRack(i) is a silent no-op when exchange mode is
active or when rack slot i is empty; otherwise it appends the slot's
letter, uppercased, and the index — even when i already occurs in
wordRackIndices. -/
theorem claim_C5_amended (s : State) (i : Nat) :
    (s.exchanging = true → appendFromRack s i = s) ∧
    ((handsGet s.hands s.currentPlayer).get? i = none →
      appendFromRack s i = s) ∧
    (∀ ch : Char, s.exchanging = false →
      (handsGet s.hands s.currentPlayer).get? i = some ch →
      appendFromRack s i
        = { s with word := s.word ++ [ch.toUpper],
                   wordRackIndices := s.wordRackIndices ++ [some i],
                   error := none }) := by
  refine ⟨?_, ?_, ?_⟩
  · intro hex
    simp [appendFromRack, hex]
  · intro hnone
    rw [List.get?_eq_getElem?] at hnone
    by_cases hex : s.exchanging = true <;>
      simp [appendFromRack, hex, hnone]
  · intro ch hex hsome
    rw [List.get?_eq_getElem?] at hsome
    simp [appendFromRack, hex, hsome]

/-- Witness for the amended C5: the committed slot 0 is appended again. -/
theorem claim_C5_w :
    appendFromRack sRe 0
      = { sRe with word := sRe.word ++ ['A'.toUpper],
                   wordRackIndices := sRe.wordRackIndices ++ [some 0],
                   error := none } :=
  (claim_C5_amended sRe 0).2.2 'A' rfl rfl

-- ## Claim C6

/-- Counterexample to C6: clear() resets start, word and the index map but
leaves a previously fixed direction in place instead of returning it to
undetermined. -/
theorem claim_C6_cex :
    (clear sDir).start = none ∧ (clear sDir).word = [] ∧
    (clear sDir).wordRackIndices = [] ∧
    (clear sDir).direction = some Dir.col ∧
    (clear sDir).direction ≠ none := by
  decide

/-- C6 amended: clear() resets start, word, wordRackIndices and the error,
and leaves every other field, the direction included, unchanged. -/
theorem claim_C6_amended (s : State) :
    clear s = { s with start := none, word := [], wordRackIndices := [],
                       error := none } ∧
    (clear s).direction = s.direction :=
  ⟨rfl, rfl⟩

-- ## Claim C7

/-- Counterexample to C7: setWord checks no exchange mode, so the sequence
startExchange(); setWord("A") — both public operations, run from the
initial state — reaches a state that is exchanging with a non-empty
composed word. -/
theorem claim_C7_cex :
    (runOps initialState opsC7).exchanging = true ∧
    (runOps initialState opsC7).word ≠ [] := by
  decide

/-- C7 amended: startExchange is a no-op when a word is composed, and
appendFromRack / appendFromKeyboard are no-ops while exchanging (and
variant A's placeLetterPreview never touches the word), but setWord does
not check exchange mode: it installs the word regardless, so exchange mode
and a non-empty word can coexist. -/
theorem claim_C7_amended (s : State) (i : Nat) (c : Char) (w : List Char)
    (x y : Int) (ri : Option Nat) :
    (s.word ≠ [] → startExchange s = s) ∧
    (s.exchanging = true → appendFromRack s i = s) ∧
    (s.exchanging = true → appendFromKeyboard s c = s) ∧
    ((placeLetterPreviewA s x y c ri).word = s.word) ∧
    ((setWord s w).exchanging = s.exchanging) ∧
    ((setWord s w).word = w.map Char.toUpper) := by
  refine ⟨?_, ?_, ?_, ?_, rfl, rfl⟩
  · intro hw
    simp [startExchange, hw]
  · intro hex
    simp [appendFromRack, hex]
  · intro hex
    simp [appendFromKeyboard, hex]
  · unfold placeLetterPreviewA
    try dsimp only
    repeat' split
    all_goals rfl

/-- Witness for the amended C7: startExchange is a no-op on a state whose
word is non-empty. -/
theorem claim_C7_w : startExchange sRe = sRe :=
  (claim_C7_amended sRe 0 'A' [] 0 0 none).1 (by decide)

-- ## Claim C8

/-- Counterexample to C8: variant A's placeLetterPreview writes through to
the snapshots: it stamps the letter into the empty board cell and blanks
the consumed rack slot. -/
theorem claim_C8_cex :
    (placeLetterPreviewA sStamp 0 0 'A' (some 0)).board ≠ sStamp.board ∧
    (placeLetterPreviewA sStamp 0 0 'A' (some 0)).hands ≠ sStamp.hands := by
  decide

/-- C8 amended: every composer operation except variant A's
placeLetterPreview leaves the board and hands fields unchanged;
placeLetterPreview (lines 421-451) writes the dropped letter into an empty
target cell of the board and blanks the consumed rack slot. -/
theorem claim_C8_amended (s : State) (i : Nat) (c : Char) (w : List Char)
    (x y : Int) (d : Dir) (ri : Option Nat) :
    ((setStart s x y).board = s.board ∧ (setStart s x y).hands = s.hands) ∧
    ((setDirection s d).board = s.board ∧ (setDirection s d).hands = s.hands) ∧
    ((setWord s w).board = s.board ∧ (setWord s w).hands = s.hands) ∧
    ((clear s).board = s.board ∧ (clear s).hands = s.hands) ∧
    ((backspaceWord s).board = s.board ∧ (backspaceWord s).hands = s.hands) ∧
    ((appendFromRack s i).board = s.board ∧
      (appendFromRack s i).hands = s.hands) ∧
    ((appendFromKeyboard s c).board = s.board ∧
      (appendFromKeyboard s c).hands = s.hands) ∧
    ((startExchange s).board = s.board ∧ (startExchange s).hands = s.hands) ∧
    ((toggleExchangeIndex s i).board = s.board ∧
      (toggleExchangeIndex s i).hands = s.hands) ∧
    ((cancelExchange s).board = s.board ∧ (cancelExchange s).hands = s.hands) ∧
    ((placeResetLocal s).board = s.board ∧
      (placeResetLocal s).hands = s.hands) ∧
    ((placeLetterPreviewB s x y c ri).board = s.board ∧
      (placeLetterPreviewB s x y c ri).hands = s.hands) := by
  refine ⟨⟨rfl, rfl⟩, ⟨rfl, rfl⟩, ⟨rfl, rfl⟩, ⟨rfl, rfl⟩, ?_, ?_, ?_,
    ?_, ?_, ⟨rfl, rfl⟩, ⟨rfl, rfl⟩, ?_⟩
  · unfold backspaceWord
    repeat' split
    all_goals exact ⟨rfl, rfl⟩
  · unfold appendFromRack
    try dsimp only
    repeat' split
    all_goals exact ⟨rfl, rfl⟩
  · unfold appendFromKeyboard
    try dsimp only
    repeat' split
    all_goals exact ⟨rfl, rfl⟩
  · unfold startExchange
    repeat' split
    all_goals exact ⟨rfl, rfl⟩
  · unfold toggleExchangeIndex
    repeat' split
    all_goals exact ⟨rfl, rfl⟩
  · unfold placeLetterPreviewB
    try dsimp only
    repeat' split
    all_goals exact ⟨rfl, rfl⟩

-- ## Claim C9

/-- Counterexample to C9: in the variant of loadGame at lines 120-189, a
refresh completing while a move is composed does not reset the composer:
the word survives unchanged. -/
theorem claim_C9_cex :
    sComposing.word ≠ [] ∧
    (loadGameA sComposing gidEx fRef).word = sComposing.word ∧
    (loadGameA sComposing gidEx fRef).word ≠ [] := by
  decide

/-- C9 amended: the variant of loadGame at lines 592-649 resets word and
wordRackIndices to empty and preserves an already-set start (seeding the
board-centre cell when start was null); the variant at lines 120-189
handles start the same way but leaves word and wordRackIndices untouched. -/
theorem claim_C9_amended (s : State) (gid : String) (f : Fetched) :
    ((loadGameB s gid f).word = [] ∧
      (loadGameB s gid f).wordRackIndices = []) ∧
    (∀ st, s.start = some st → (loadGameB s gid f).start = some st) ∧
    (s.start = none → (loadGameB s gid f).start = some (centerOf f.board)) ∧
    ((loadGameA s gid f).word = s.word ∧
      (loadGameA s gid f).wordRackIndices = s.wordRackIndices) ∧
    (∀ st, s.start = some st → (loadGameA s gid f).start = some st) ∧
    (s.start = none → (loadGameA s gid f).start = some (centerOf f.board)) := by
  refine ⟨⟨rfl, rfl⟩, ?_, ?_, ⟨rfl, rfl⟩, ?_, ?_⟩
  · intro st hst
    simp [loadGameB, hst]
  · intro hst
    simp [loadGameB, hst]
  · intro st hst
    simp [loadGameA, hst]
  · intro hst
    simp [loadGameA, hst]

/-- Witness for the amended C9: a start set before the refresh survives
the refresh in both variants, and the composed word survives variant A. -/
theorem claim_C9_w :
    (loadGameB sComposing gidEx fRef).start = some (0, 0) ∧
    (loadGameA sComposing gidEx fRef).start = some (0, 0) :=
  ⟨(claim_C9_amended sComposing gidEx fRef).2.1 (0, 0) rfl,
   (claim_C9_amended sComposing gidEx fRef).2.2.2.2.1 (0, 0) rfl⟩

-- ## Claim C10

/-- C10: confirmExchange sends no request and leaves the state unchanged
when no game id is set, when exchange mode is inactive, when the selection
is empty, or when every selected index is stale (resolves to no rack
letter). -/
theorem claim_C10 (s : State) :
    (s.gameId = none ∨ s.exchanging = false ∨ s.exchangeSelection = [] ∨
      (∀ i ∈ s.exchangeSelection,
        (handsGet s.hands s.currentPlayer).get? i = none)) →
    confirmExchangeStep s = (s, none) := by
  intro h
  unfold confirmExchangeStep
  cases hg : s.gameId with
  | none => rfl
  | some gid =>
    dsimp only
    rcases h with h | h | h | h
    · rw [hg] at h
      simp at h
    · simp [h]
    · simp [h]
    · by_cases hG : gid.isEmpty = true ∨ s.exchanging = false ∨
        s.exchangeSelection.length = 0
      · rcases hG with hG | hG | hG <;> simp [hG]
      · rw [if_neg hG]
        have hfm : s.exchangeSelection.filterMap
            (fun i => (handsGet s.hands s.currentPlayer).get? i) = [] :=
          List.filterMap_eq_nil_iff.mpr h
        rw [hfm]
        simp

/-- Witness for C10: a confirm whose whole selection is stale after a
refresh neither contacts the service nor changes the state. -/
theorem claim_C10_w : confirmExchangeStep sStale = (sStale, none) :=
  claim_C10 sStale (Or.inr (Or.inr (Or.inr (by decide))))

end Scrabble

